import Mathlib

/-!
Shallow embedding of the career-assistant router (`src/agents/orchestrator.py`,
`src/agents/sql_agent.py`, `src/agents/rag_agent.py`).

The external agent loop (`create_agent(...)`), the language model and the two
store gateways are collaborators: they are modelled as a deterministic function
from the message list to an `AgentRun` describing the events the collaborator
streams, its final outcome (answer or raised exception detail), and the elapsed
wall-clock time of the session.  Python exceptions are modelled with `Except`;
the Python dictionaries and duck-typed values reaching `_convert_history` are
modelled by explicit sum types.
-/

namespace CareerAdvisor

/-- LangChain message objects appearing in a normalized history.  `human` and
`ai` are the `HumanMessage`/`AIMessage` built by `_convert_history`; `otherMsg`
is any other object carrying a `content` attribute, which the code passes
through unchanged. -/
inductive MsgO
  | human (content : String)
  | ai (content : String)
  | otherMsg (content : String)
deriving DecidableEq, Repr

/-- One element of a raw `chat_history` list: a Python dict (with optional
`role` and `content` entries), a message-like object (anything with a
`content` attribute), or any other value. -/
inductive HistItem
  | dictItem (role : Option String) (content : Option String)
  | msgObj (m : MsgO)
  | otherItem
deriving DecidableEq, Repr

/-- The raw `chat_history` argument of `route_query` / `stream_query`:
`None`, a list, a string, or any other Python value. -/
inductive RawHistory
  | pyNone
  | listVal (items : List HistItem)
  | strVal (s : String)
  | otherVal
deriving DecidableEq, Repr

/-- Exception detail raised by `HumanMessage(content=None)` /
`AIMessage(content=None)` (pydantic validation failure when a history dict
lacks a usable `content`). -/
def contentValidationError : String := "Input should be a valid string"

/-- Processing of one history list element inside the loop of
`_convert_history`: dicts with role `user`/`assistant` become messages
(raising when their content is missing), message-like objects pass through,
everything else is skipped. -/
def convertItem : HistItem → Except String (Option MsgO)
  | .dictItem role content =>
    if role = some "user" then
      match content with
      | some c => .ok (some (.human c))
      | Option.none => .error contentValidationError
    else if role = some "assistant" then
      match content with
      | some c => .ok (some (.ai c))
      | Option.none => .error contentValidationError
    else .ok Option.none
  | .msgObj m => .ok (some m)
  | .otherItem => .ok Option.none

/-- The `for m in chat_history` loop of `_convert_history`: items are
processed left to right, successful conversions are appended in order, and a
raised exception aborts the loop. -/
def convertItems : List HistItem → Except String (List MsgO)
  | [] => .ok []
  | it :: rest =>
    match convertItem it with
    | .error e => .error e
    | .ok m? =>
      match convertItems rest with
      | .error e => .error e
      | .ok tail =>
        match m? with
        | some m => .ok (m :: tail)
        | Option.none => .ok tail

/-- `Orchestrator._convert_history`: a list is converted element-wise, a
string becomes a single `HumanMessage` of background context, and anything
else yields the empty history. -/
def convertHistory : RawHistory → Except String (List MsgO)
  | .listVal items => convertItems items
  | .strVal s => .ok [.human ("Previous conversation context:\n" ++ s)]
  | .pyNone => .ok []
  | .otherVal => .ok []

/-- Re-presenting an already normalized history to `_convert_history`: each
LangChain message object is a list element bearing a `content` attribute. -/
def msgsToRaw (l : List MsgO) : RawHistory := .listVal (l.map .msgObj)

/-- The pure per-item projection realized by a successful conversion. -/
def itemMsg : HistItem → Option MsgO
  | .dictItem role content =>
    if role = some "user" then content.map .human
    else if role = some "assistant" then content.map .ai
    else Option.none
  | .msgObj m => some m
  | .otherItem => Option.none

theorem convertItems_msgObj (l : List MsgO) :
    convertItems (l.map .msgObj) = .ok l := by
  induction l with
  | nil => rfl
  | cons m rest ih => simp [convertItems, convertItem, ih]

theorem convertItem_ok_itemMsg {it : HistItem} {m? : Option MsgO}
    (h : convertItem it = .ok m?) : itemMsg it = m? := by
  rcases it with ⟨role, content⟩ | m | _
  · simp only [convertItem] at h
    by_cases hu : role = some "user"
    · rw [if_pos hu] at h
      rcases content with _ | c
      · exact absurd h (by simp)
      · simp only [Except.ok.injEq] at h
        simp [itemMsg, hu, ← h]
    · rw [if_neg hu] at h
      by_cases ha : role = some "assistant"
      · rw [if_pos ha] at h
        rcases content with _ | c
        · exact absurd h (by simp)
        · simp only [Except.ok.injEq] at h
          simp [itemMsg, hu, ha, ← h]
      · rw [if_neg ha] at h
        simp only [Except.ok.injEq] at h
        simp [itemMsg, hu, ha, ← h]
  · simp only [convertItem, Except.ok.injEq] at h
    simp [itemMsg, ← h]
  · simp only [convertItem, Except.ok.injEq] at h
    simp [itemMsg, ← h]

theorem convertItems_ok_filterMap {items : List HistItem} {l : List MsgO}
    (h : convertItems items = .ok l) : l = items.filterMap itemMsg := by
  induction items generalizing l with
  | nil =>
    simp [convertItems] at h
    simp [← h]
  | cons it rest ih =>
    simp only [convertItems] at h
    rcases hit : convertItem it with e | m? <;> rw [hit] at h
    · exact absurd h (by simp)
    · rcases hr : convertItems rest with e | tail <;> rw [hr] at h
      · exact absurd h (by simp)
      · rcases m? with _ | m <;> simp only [Except.ok.injEq] at h <;>
          simp [← h, List.filterMap_cons, convertItem_ok_itemMsg hit, ih hr]

/-- A streamed token chunk of `stream_mode="messages"`: its optional
`usage_metadata` dict (optional `input_tokens` / `output_tokens` entries),
the `tags` list of its metadata, and its `content` text. -/
structure TokenChunk where
  usage : Option (Option Nat × Option Nat)
  tags : List String
  content : String
deriving DecidableEq, Repr

/-- The last message of a node state in an `updates` entry: an `AIMessage`
(with the names of its tool calls), a `ToolMessage` (with its content), or
any other message kind. -/
inductive NodeMsg
  | aiMsg (toolCalls : List String)
  | toolMsg (content : String)
  | otherKind
deriving DecidableEq, Repr

/-- One `node_name -> state` entry of an `updates` dict; `lastMessage` is
`none` when the state has no `messages` key. -/
structure NodeUpdate where
  name : String
  lastMessage : Option NodeMsg
deriving DecidableEq, Repr

/-- The data of a `custom` stream entry: a dict with optional `type` and
`content` entries, or any non-dict value. -/
inductive CustomData
  | dictData (typ : Option String) (content : Option String)
  | nonDict
deriving DecidableEq, Repr

/-- One `(path, mode, data)` tuple yielded by the collaborator's stream. -/
inductive RawEvent
  | updates (nodes : List NodeUpdate)
  | custom (data : CustomData)
  | messages (token : TokenChunk)
deriving DecidableEq, Repr

/-- An event yielded by `stream_query` to its consumer. -/
inductive Event
  | thought (text : String)
  | content (text : String)
  | metadata (latency : Nat) (inputTokens : Nat) (outputTokens : Nat)
deriving DecidableEq, Repr

/-- The local state threaded through the streaming loop:
`current_agent`, `total_input_tokens`, `total_output_tokens`. -/
structure StreamState where
  currentAgent : String
  totalIn : Nat
  totalOut : Nat
deriving DecidableEq, Repr

/-- State at loop entry. -/
def initState : StreamState := ⟨"orchestrator", 0, 0⟩

/-- Python `str.title()` on one word: first character upper-cased, the rest
lower-cased. -/
def capitalizeWord (w : String) : String :=
  match w.data with
  | [] => ""
  | c :: cs => String.mk (c.toUpper :: cs.map Char.toLower)

/-- `s.replace('_', ' ').title()` as used on the agent tag. -/
def pyTitle (s : String) : String :=
  String.intercalate " " (((s.replace "_" " ").splitOn " ").map capitalizeWord)

/-- Python `str(x)` of an optional dict entry (`None` renders as "None"). -/
def pyStr (c : Option String) : String :=
  match c with
  | some s => s
  | Option.none => "None"

/-- Events yielded for one node of an `updates` entry: tool-call thoughts for
an `AIMessage` with non-empty `tool_calls`, a truncated-output thought for a
`ToolMessage`. -/
def nodeEvents (n : NodeUpdate) : List Event :=
  match n.lastMessage with
  | Option.none => []
  | some (.aiMsg toolCalls) =>
    if toolCalls = [] then []
    else toolCalls.map (fun tc => .thought ("🛠️ **Using tool:** `" ++ tc ++ "`"))
  | some (.toolMsg c) =>
    let snippet := if c.length > 300 then c.take 300 ++ "..." else c
    [.thought ("✅ **Tool finished.** Output: \n```\n" ++ snippet ++ "\n```")]
  | some .otherKind => []

/-- Events yielded for a `custom` entry. -/
def customEvents (d : CustomData) : List Event :=
  match d with
  | .dictData typ content =>
    if typ = some "sql_query" then
      [.thought ("🔍 **Generating SQL:**\n```sql\n" ++ pyStr content ++ "\n```")]
    else if typ = some "rag_search" then
      [.thought ("📖 **Searching Knowledge Base for:** `" ++ pyStr content ++ "`")]
    else []
  | .nonDict => []

/-- Overwriting of the usage counters from a token's `usage_metadata`
(`total_input_tokens = token.usage_metadata.get("input_tokens",
total_input_tokens)`, and likewise for output): each key present replaces the
previous value, a missing key keeps it. -/
def usageUpdate (st : StreamState) (tok : TokenChunk) : StreamState :=
  match tok.usage with
  | some (i?, o?) => { st with totalIn := i?.getD st.totalIn, totalOut := o?.getD st.totalOut }
  | Option.none => st

/-- Tracking of which agent is speaking from the token's tags, announcing a
sub-agent with a `thought` event when it changes. -/
def agentTrackStep (st : StreamState) (tok : TokenChunk) : StreamState × List Event :=
  match tok.tags with
  | [] => (st, [])
  | thisAgent :: _ =>
    if thisAgent ≠ st.currentAgent ∧ thisAgent ∈ ["sql_agent", "rag_agent"] then
      ({ st with currentAgent := thisAgent },
        [.thought ("🤖 **" ++ pyTitle thisAgent ++ "** starts processing...")])
    else if "orchestrator" ∈ tok.tags then
      ({ st with currentAgent := "orchestrator" }, [])
    else (st, [])

/-- The `content` events of one token: its text, only when non-empty and
tagged with `orchestrator`. -/
def contentEvents (tok : TokenChunk) : List Event :=
  if tok.content ≠ "" ∧ (tok.tags ≠ [] ∧ "orchestrator" ∈ tok.tags) then
    [.content tok.content]
  else []

/-- Processing of one `messages`-mode token: usage counters are overwritten,
the speaking agent is tracked, and the token's text is yielded as `content`
only when non-empty and tagged with `orchestrator`. -/
def messagesStep (st : StreamState) (tok : TokenChunk) : StreamState × List Event :=
  let st1 := usageUpdate st tok
  let track := agentTrackStep st1 tok
  (track.1, track.2 ++ contentEvents tok)

/-- Processing of one streamed tuple inside the `for` loop. -/
def eventStep (st : StreamState) (ev : RawEvent) : StreamState × List Event :=
  match ev with
  | .updates nodes => (st, nodes.flatMap nodeEvents)
  | .custom d => (st, customEvents d)
  | .messages tok => messagesStep st tok

/-- The whole loop: events are processed left to right, threading the state
and concatenating the yielded events. -/
def runEvents (st : StreamState) : List RawEvent → StreamState × List Event
  | [] => (st, [])
  | ev :: rest =>
    let step := eventStep st ev
    let tail := runEvents step.1 rest
    (tail.1, step.2 ++ tail.2)

/-- One deterministic session of the collaborating agent loop: the tuples its
stream yields before finishing or raising, its outcome (`.ok` final answer as
returned by `invoke`, `.error` exception detail), and the session's elapsed
wall-clock time. -/
structure AgentRun where
  events : List RawEvent
  outcome : Except String String
  elapsed : Nat
deriving Repr

/-- `Orchestrator.route_query`: convert the history, append the user query,
invoke the agent and return the last message's content; any exception is
caught and rendered as the fixed apologetic error string. -/
def routeQuery (agent : List MsgO → AgentRun) (userQuery : String)
    (chatHistory : RawHistory) : String :=
  match convertHistory chatHistory with
  | .error e => "Sorry, there was a technical issue: " ++ e
  | .ok hist =>
    match (agent (hist ++ [MsgO.human userQuery])).outcome with
    | .ok answer => answer
    | .error e => "Sorry, there was a technical issue: " ++ e

/-- `Orchestrator.stream_query`: convert the history, process each streamed
tuple, then yield the final `metadata` event; any exception is caught and a
final `content` apology is yielded instead (the events already yielded before
the failure stand). -/
def streamQuery (agent : List MsgO → AgentRun) (userQuery : String)
    (chatHistory : RawHistory) : List Event :=
  match convertHistory chatHistory with
  | .error e => [.content ("Sorry, there was a technical issue during streaming: " ++ e)]
  | .ok hist =>
    let run := agent (hist ++ [MsgO.human userQuery])
    let processed := runEvents initState run.events
    match run.outcome with
    | .ok _ => processed.2 ++ [.metadata run.elapsed processed.1.totalIn processed.1.totalOut]
    | .error e =>
      processed.2 ++ [.content ("Sorry, there was a technical issue during streaming: " ++ e)]

/-- `SQLAgent.run`: invoke the SQL agent loop and return the last message's
content; any exception is caught and rendered as `Database error: ...`. -/
def sqlAgentRun (invokeResult : Except String String) : String :=
  match invokeResult with
  | .ok answer => answer
  | .error e => "Database error: " ++ e

/-- `RAGAgent.run`: invoke the RAG agent loop and return the last message's
content; any exception is caught and rendered as the apologetic string. -/
def ragAgentRun (invokeResult : Except String String) : String :=
  match invokeResult with
  | .ok answer => answer
  | .error e => "Sorry, there was a technical issue while searching: " ++ e

/-- Concatenation, in emission order, of the payloads of the `content`
events of an event sequence. -/
def contentConcat : List Event → String
  | [] => ""
  | .content s :: rest => s ++ contentConcat rest
  | _ :: rest => contentConcat rest

/-- Number of `metadata` events of an event sequence. -/
def metadataCount (evs : List Event) : Nat :=
  evs.countP (fun e => match e with | .metadata _ _ _ => true | _ => false)

/-- The `content` text contributed by one token: its text exactly when the
emission condition of `contentEvents` holds. -/
def orchTokenText (tok : TokenChunk) : String :=
  if tok.content ≠ "" ∧ (tok.tags ≠ [] ∧ "orchestrator" ∈ tok.tags) then tok.content else ""

/-- The `content` text contributed by one streamed tuple. -/
def orchEventText : RawEvent → String
  | .messages tok => orchTokenText tok
  | _ => ""

/-- Concatenation of the orchestrator-tagged token texts of a stream. -/
def orchConcat : List RawEvent → String
  | [] => ""
  | ev :: rest => orchEventText ev ++ orchConcat rest

/-- The usage-counter update realized by one streamed tuple, as a fold over
pairs: a `messages` token overwrites each counter whose key its
`usage_metadata` carries. -/
def usageFold (acc : Nat × Nat) (ev : RawEvent) : Nat × Nat :=
  match ev with
  | .messages tok =>
    match tok.usage with
    | some (i?, o?) => (i?.getD acc.1, o?.getD acc.2)
    | Option.none => acc
  | _ => acc

theorem contentConcat_append (a b : List Event) :
    contentConcat (a ++ b) = contentConcat a ++ contentConcat b := by
  induction a with
  | nil => simp [contentConcat]
  | cons e rest ih =>
    cases e <;> simp [contentConcat, ih, String.append_assoc]

theorem mem_nodeEvents_thought {n : NodeUpdate} {e : Event} (h : e ∈ nodeEvents n) :
    ∃ t, e = .thought t := by
  rcases n with ⟨name, lm⟩
  rcases lm with _ | (tcs | c | _)
  · simp [nodeEvents] at h
  · simp only [nodeEvents] at h
    split at h
    · simp at h
    · obtain ⟨tc, _, rfl⟩ := List.mem_map.mp h
      exact ⟨_, rfl⟩
  · simp only [nodeEvents] at h
    simp at h
    exact ⟨_, h⟩
  · simp [nodeEvents] at h

theorem mem_customEvents_thought {d : CustomData} {e : Event} (h : e ∈ customEvents d) :
    ∃ t, e = .thought t := by
  rcases d with ⟨typ, content⟩ | _
  · simp only [customEvents] at h
    split at h
    · simp at h
      exact ⟨_, h⟩
    · split at h
      · simp at h
        exact ⟨_, h⟩
      · simp at h
  · simp [customEvents] at h

theorem mem_agentTrackStep_thought {st : StreamState} {tok : TokenChunk} {e : Event}
    (h : e ∈ (agentTrackStep st tok).2) : ∃ t, e = .thought t := by
  rcases tok with ⟨usage, tags, content⟩
  rcases tags with _ | ⟨a, rest⟩
  · simp [agentTrackStep] at h
  · simp only [agentTrackStep] at h
    split at h
    · simp at h
      exact ⟨_, h⟩
    · split at h
      · simp at h
      · simp at h

theorem mem_eventStep_shape {st : StreamState} {ev : RawEvent} {e : Event}
    (h : e ∈ (eventStep st ev).2) :
    (∃ t, e = .thought t) ∨
      ∃ tok, ev = .messages tok ∧ "orchestrator" ∈ tok.tags ∧ e = .content tok.content := by
  rcases ev with nodes | d | tok
  · left
    obtain ⟨n, _, hn⟩ := List.mem_flatMap.mp h
    exact mem_nodeEvents_thought hn
  · left
    exact mem_customEvents_thought h
  · simp only [eventStep, messagesStep] at h
    rcases List.mem_append.mp h with h1 | h2
    · left
      exact mem_agentTrackStep_thought h1
    · right
      unfold contentEvents at h2
      split at h2
      · rename_i hcond
        simp at h2
        exact ⟨tok, rfl, hcond.2.2, h2⟩
      · simp at h2

theorem mem_runEvents_shape {evs : List RawEvent} :
    ∀ {st : StreamState} {e : Event}, e ∈ (runEvents st evs).2 →
      (∃ t, e = .thought t) ∨
        ∃ tok, RawEvent.messages tok ∈ evs ∧ "orchestrator" ∈ tok.tags ∧
          e = .content tok.content := by
  induction evs with
  | nil =>
    intro st e h
    simp [runEvents] at h
  | cons ev rest ih =>
    intro st e h
    simp only [runEvents] at h
    rcases List.mem_append.mp h with h1 | h2
    · rcases mem_eventStep_shape h1 with ht | ⟨tok, rfl, horch, he⟩
      · exact .inl ht
      · exact .inr ⟨tok, by simp, horch, he⟩
    · rcases ih h2 with ht | ⟨tok, hmem, horch, he⟩
      · exact .inl ht
      · exact .inr ⟨tok, by simp [hmem], horch, he⟩

theorem metadataCount_runEvents (evs : List RawEvent) (st : StreamState) :
    metadataCount (runEvents st evs).2 = 0 := by
  rw [metadataCount, List.countP_eq_zero]
  intro e he
  rcases mem_runEvents_shape he with ⟨t, rfl⟩ | ⟨tok, _, _, rfl⟩ <;> simp

theorem contentConcat_of_thoughts {l : List Event}
    (h : ∀ e ∈ l, ∃ t, e = .thought t) : contentConcat l = "" := by
  induction l with
  | nil => rfl
  | cons e rest ih =>
    obtain ⟨t, rfl⟩ := h e (by simp)
    simpa [contentConcat] using ih (fun e he => h e (by simp [he]))

theorem contentConcat_messagesStep (st : StreamState) (tok : TokenChunk) :
    contentConcat (messagesStep st tok).2 = orchTokenText tok := by
  simp only [messagesStep]
  rw [contentConcat_append,
    contentConcat_of_thoughts (fun e he => mem_agentTrackStep_thought he)]
  unfold contentEvents orchTokenText
  split
  · simp [contentConcat]
  · simp [contentConcat]

theorem contentConcat_eventStep (st : StreamState) (ev : RawEvent) :
    contentConcat (eventStep st ev).2 = orchEventText ev := by
  rcases ev with nodes | d | tok
  · simp only [eventStep, orchEventText]
    apply contentConcat_of_thoughts
    intro e he
    obtain ⟨n, _, hn⟩ := List.mem_flatMap.mp he
    exact mem_nodeEvents_thought hn
  · simp only [eventStep, orchEventText]
    exact contentConcat_of_thoughts (fun e he => mem_customEvents_thought he)
  · simp only [eventStep, orchEventText]
    exact contentConcat_messagesStep st tok

theorem contentConcat_runEvents (evs : List RawEvent) :
    ∀ st : StreamState, contentConcat (runEvents st evs).2 = orchConcat evs := by
  induction evs with
  | nil => intro st; rfl
  | cons ev rest ih =>
    intro st
    simp only [runEvents, orchConcat]
    rw [contentConcat_append, contentConcat_eventStep, ih]

theorem agentTrackStep_totals (st : StreamState) (tok : TokenChunk) :
    (agentTrackStep st tok).1.totalIn = st.totalIn ∧
      (agentTrackStep st tok).1.totalOut = st.totalOut := by
  rcases tok with ⟨usage, tags, content⟩
  rcases tags with _ | ⟨a, rest⟩
  · exact ⟨rfl, rfl⟩
  · simp only [agentTrackStep]
    split
    · exact ⟨rfl, rfl⟩
    · split
      · exact ⟨rfl, rfl⟩
      · exact ⟨rfl, rfl⟩

theorem eventStep_totals (st : StreamState) (ev : RawEvent) :
    ((eventStep st ev).1.totalIn, (eventStep st ev).1.totalOut) =
      usageFold (st.totalIn, st.totalOut) ev := by
  rcases ev with nodes | d | tok
  · rfl
  · rfl
  · simp only [eventStep, messagesStep, usageFold]
    obtain ⟨h1, h2⟩ := agentTrackStep_totals (usageUpdate st tok) tok
    rw [h1, h2]
    rcases tok with ⟨usage, tags, content⟩
    rcases usage with _ | ⟨i?, o?⟩
    · rfl
    · rfl

theorem runEvents_totals (evs : List RawEvent) :
    ∀ st : StreamState, ((runEvents st evs).1.totalIn, (runEvents st evs).1.totalOut) =
      evs.foldl usageFold (st.totalIn, st.totalOut) := by
  induction evs with
  | nil => intro st; rfl
  | cons ev rest ih =>
    intro st
    simp only [runEvents, List.foldl_cons]
    rw [← eventStep_totals st ev]
    exact ih (eventStep st ev).1

/-- The `for m in chat_history` loop with the caller's list as explicit
state: each iteration reads one element and leaves it in place, so the second
component is the caller's list as the loop leaves it. -/
def convertItemsFr : List HistItem → Except String (List MsgO) × List HistItem
  | [] => (.ok [], [])
  | it :: rest =>
    match convertItem it with
    | .error e => (.error e, it :: rest)
    | .ok m? =>
      let tail := convertItemsFr rest
      (match tail.1 with
        | .error e => .error e
        | .ok l =>
          match m? with
          | some m => .ok (m :: l)
          | Option.none => .ok l,
        it :: tail.2)

/-- `_convert_history` with the caller's `chat_history` as explicit state:
the function only reads the value it is given. -/
def convertHistoryFr : RawHistory → Except String (List MsgO) × RawHistory
  | .listVal items =>
    let r := convertItemsFr items
    (r.1, .listVal r.2)
  | .strVal s => (.ok [.human ("Previous conversation context:\n" ++ s)], .strVal s)
  | .pyNone => (.ok [], .pyNone)
  | .otherVal => (.ok [], .otherVal)

/-- `route_query` with the caller's `chat_history` as explicit state. -/
def routeQueryFr (agent : List MsgO → AgentRun) (userQuery : String)
    (chatHistory : RawHistory) : String × RawHistory :=
  let c := convertHistoryFr chatHistory
  match c.1 with
  | .error e => ("Sorry, there was a technical issue: " ++ e, c.2)
  | .ok hist =>
    match (agent (hist ++ [MsgO.human userQuery])).outcome with
    | .ok answer => (answer, c.2)
    | .error e => ("Sorry, there was a technical issue: " ++ e, c.2)

/-- `stream_query` with the caller's `chat_history` as explicit state. -/
def streamQueryFr (agent : List MsgO → AgentRun) (userQuery : String)
    (chatHistory : RawHistory) : List Event × RawHistory :=
  let c := convertHistoryFr chatHistory
  match c.1 with
  | .error e =>
    ([.content ("Sorry, there was a technical issue during streaming: " ++ e)], c.2)
  | .ok hist =>
    let run := agent (hist ++ [MsgO.human userQuery])
    let processed := runEvents initState run.events
    match run.outcome with
    | .ok _ =>
      (processed.2 ++ [.metadata run.elapsed processed.1.totalIn processed.1.totalOut], c.2)
    | .error e =>
      (processed.2 ++ [.content ("Sorry, there was a technical issue during streaming: " ++ e)],
        c.2)

theorem convertItemsFr_frame (items : List HistItem) : (convertItemsFr items).2 = items := by
  induction items with
  | nil => rfl
  | cons it rest ih =>
    rcases hit : convertItem it with e | m? <;> simp [convertItemsFr, hit, ih]

theorem convertItemsFr_fst (items : List HistItem) :
    (convertItemsFr items).1 = convertItems items := by
  induction items with
  | nil => rfl
  | cons it rest ih =>
    rcases hit : convertItem it with e | m?
    · simp [convertItemsFr, convertItems, hit]
    · rcases hr : (convertItemsFr rest).1 with e | l <;>
        simp [convertItemsFr, convertItems, hit, hr, ← ih]

theorem convertHistoryFr_frame (h : RawHistory) : (convertHistoryFr h).2 = h := by
  rcases h with _ | items | s | _ <;> simp [convertHistoryFr, convertItemsFr_frame]

theorem convertHistoryFr_fst (h : RawHistory) :
    (convertHistoryFr h).1 = convertHistory h := by
  rcases h with _ | items | s | _ <;> simp [convertHistoryFr, convertHistory, convertItemsFr_fst]

theorem routeQueryFr_fst (agent : List MsgO → AgentRun) (q : String) (h : RawHistory) :
    (routeQueryFr agent q h).1 = routeQuery agent q h := by
  rcases hc : convertHistory h with e | hist
  · simp [routeQueryFr, routeQuery, convertHistoryFr_fst, hc]
  · rcases ho : (agent (hist ++ [MsgO.human q])).outcome with e | a <;>
      simp [routeQueryFr, routeQuery, convertHistoryFr_fst, hc, ho]

theorem streamQueryFr_fst (agent : List MsgO → AgentRun) (q : String) (h : RawHistory) :
    (streamQueryFr agent q h).1 = streamQuery agent q h := by
  rcases hc : convertHistory h with e | hist
  · simp [streamQueryFr, streamQuery, convertHistoryFr_fst, hc]
  · rcases ho : (agent (hist ++ [MsgO.human q])).outcome with e | a <;>
      simp [streamQueryFr, streamQuery, convertHistoryFr_fst, hc, ho]

/-- A collaborator whose call raises with detail `boom` before yielding
anything. -/
def failAgent : List MsgO → AgentRun := fun _ => ⟨[], .error "boom", 0⟩

/-- A collaborator that streams one orchestrator-tagged token and returns the
matching final answer. -/
def okTok : TokenChunk := ⟨some (some 10, some 5), ["orchestrator"], "Hello!"⟩

/-- Deterministic successful collaborator built from `okTok`. -/
def okAgent : List MsgO → AgentRun := fun _ => ⟨[.messages okTok], .ok "Hello!", 4⟩

/-- First model call of the two-call session: usage 10 input / 5 output. -/
def tokA : TokenChunk := ⟨some (some 10, some 5), ["orchestrator"], ""⟩

/-- Second model call of the two-call session: usage 20 input / 7 output. -/
def tokB : TokenChunk := ⟨some (some 20, some 7), ["orchestrator"], ""⟩

/-- A collaborator making two model calls, each reporting its usage. -/
def twoCallAgent : List MsgO → AgentRun :=
  fun _ => ⟨[.messages tokA, .messages tokB], .ok "done", 3⟩

/-- C1: for every query and history, `route_query` never propagates an
exception: it either returns the agent's final answer, or — when the history
conversion or the agent invocation raises — the fixed-format apologetic error
string embedding the exception detail. -/
theorem routeQuery_catches_exceptions (agent : List MsgO → AgentRun) (q : String)
    (h : RawHistory) :
    (∃ e, routeQuery agent q h = "Sorry, there was a technical issue: " ++ e) ∨
      ∃ hist answer, convertHistory h = .ok hist ∧
        (agent (hist ++ [MsgO.human q])).outcome = .ok answer ∧
        routeQuery agent q h = answer := by
  rcases hc : convertHistory h with e | hist
  · exact .inl ⟨e, by simp [routeQuery, hc]⟩
  · rcases ho : (agent (hist ++ [MsgO.human q])).outcome with e | a
    · exact .inl ⟨e, by simp [routeQuery, hc, ho]⟩
    · exact .inr ⟨hist, a, by simp [hc], by simp [ho], by simp [routeQuery, hc, ho]⟩

/-- C2 counterexample: with a deterministic collaborator whose call raises,
the concatenated `content` payloads of `stream_query` (the streaming apology)
differ from the string `route_query` returns (the non-streaming apology). -/
theorem streamContent_ne_route_on_failure :
    contentConcat (streamQuery failAgent "hi" RawHistory.pyNone) ≠
      routeQuery failAgent "hi" RawHistory.pyNone := by
  decide

/-- C2 (amended): for a fixed query and history with a deterministic
collaborator whose session succeeds and whose orchestrator-tagged streamed
tokens concatenate to its final answer, the concatenation of all `content`
payloads of `stream_query` equals the string `route_query` returns. -/
theorem streamContent_eq_route_on_success (agent : List MsgO → AgentRun) (q : String)
    (h : RawHistory) (hist : List MsgO) (answer : String)
    (hh : convertHistory h = .ok hist)
    (hs : (agent (hist ++ [MsgO.human q])).outcome = .ok answer)
    (hc : orchConcat (agent (hist ++ [MsgO.human q])).events = answer) :
    contentConcat (streamQuery agent q h) = routeQuery agent q h := by
  simp only [streamQuery, routeQuery, hh, hs]
  rw [contentConcat_append, contentConcat_runEvents, hc]
  simp [contentConcat]

/-- C2 witness: the success-case consistency at a concrete collaborator. -/
theorem streamContent_eq_route_on_success_witness :
    contentConcat (streamQuery okAgent "hi" RawHistory.pyNone) =
      routeQuery okAgent "hi" RawHistory.pyNone :=
  streamContent_eq_route_on_success okAgent "hi" RawHistory.pyNone [] "Hello!" rfl rfl rfl

/-- C3 counterexample: when the underlying call fails, the recorded event
sequence of `stream_query` contains no `metadata` event at all — not exactly
one. -/
theorem stream_no_metadata_on_failure :
    metadataCount (streamQuery failAgent "hi" RawHistory.pyNone) ≠ 1 := by
  decide

/-- C3 (amended): when the history conversion and the underlying call
succeed, the event sequence of `stream_query` contains exactly one `metadata`
event and it is the last element; when a call fails, no `metadata` event is
emitted and the sequence ends with a `content` apology instead. -/
theorem stream_metadata_once_last_on_success (agent : List MsgO → AgentRun) (q : String)
    (h : RawHistory) (hist : List MsgO) (answer : String)
    (hh : convertHistory h = .ok hist)
    (hs : (agent (hist ++ [MsgO.human q])).outcome = .ok answer) :
    ∃ pre lat tIn tOut, streamQuery agent q h = pre ++ [Event.metadata lat tIn tOut] ∧
      metadataCount pre = 0 := by
  refine ⟨(runEvents initState (agent (hist ++ [MsgO.human q])).events).2,
    (agent (hist ++ [MsgO.human q])).elapsed,
    (runEvents initState (agent (hist ++ [MsgO.human q])).events).1.totalIn,
    (runEvents initState (agent (hist ++ [MsgO.human q])).events).1.totalOut,
    ?_, metadataCount_runEvents _ _⟩
  simp [streamQuery, hh, hs]

/-- C3 witness: the success-case shape at a concrete collaborator. -/
theorem stream_metadata_once_last_on_success_witness :
    ∃ pre lat tIn tOut,
      streamQuery okAgent "hi" RawHistory.pyNone = pre ++ [Event.metadata lat tIn tOut] ∧
        metadataCount pre = 0 :=
  stream_metadata_once_last_on_success okAgent "hi" RawHistory.pyNone [] "Hello!" rfl rfl

/-- C4 counterexample: in a session making two model calls whose usage
reports are 10/5 and 20/7 tokens, the single `metadata` event carries 20
input and 7 output tokens — the last call's counts — not the sums 30 and 12
accumulated across every call. -/
theorem stream_metadata_tokens_not_summed :
    streamQuery twoCallAgent "q" RawHistory.pyNone = [Event.metadata 3 20 7] ∧
      (20 ≠ 10 + 20 ∨ 7 ≠ 5 + 7) :=
  ⟨rfl, by decide⟩

/-- C4 (amended): on a successful session the single `metadata` event carries
the whole session's elapsed time and, for each of the input/output counts,
the value obtained by letting every model token's usage report overwrite the
counter (a missing key keeping the previous value) — i.e. the most recent
reported counts, not a sum across calls. -/
theorem stream_metadata_reports_last_usage (agent : List MsgO → AgentRun) (q : String)
    (h : RawHistory) (hist : List MsgO) (answer : String)
    (hh : convertHistory h = .ok hist)
    (hs : (agent (hist ++ [MsgO.human q])).outcome = .ok answer) :
    ∃ pre, streamQuery agent q h = pre ++
      [Event.metadata (agent (hist ++ [MsgO.human q])).elapsed
        ((agent (hist ++ [MsgO.human q])).events.foldl usageFold (0, 0)).1
        ((agent (hist ++ [MsgO.human q])).events.foldl usageFold (0, 0)).2] := by
  refine ⟨(runEvents initState (agent (hist ++ [MsgO.human q])).events).2, ?_⟩
  have ht := runEvents_totals (agent (hist ++ [MsgO.human q])).events initState
  simp only [streamQuery, hh, hs]
  rw [show ((0 : Nat), (0 : Nat)) = (initState.totalIn, initState.totalOut) from rfl, ← ht]

/-- C4 witness: the amended metadata shape at the concrete two-call
collaborator. -/
theorem stream_metadata_reports_last_usage_witness :
    ∃ pre, streamQuery twoCallAgent "q" RawHistory.pyNone = pre ++
      [Event.metadata (twoCallAgent [MsgO.human "q"]).elapsed
        ((twoCallAgent [MsgO.human "q"]).events.foldl usageFold (0, 0)).1
        ((twoCallAgent [MsgO.human "q"]).events.foldl usageFold (0, 0)).2] :=
  stream_metadata_reports_last_usage twoCallAgent "q" RawHistory.pyNone [] "done" rfl rfl

/-- A concrete raw history mixing a user dict, a dict of unknown role, a
message object and a non-message value. -/
def histSample : RawHistory :=
  .listVal [.dictItem (some "user") (some "hi"), .dictItem (some "system") (some "y"),
    .msgObj (.ai "yo"), .otherItem]

/-- C6: history normalization is idempotent — re-normalizing its own output
reproduces it exactly — and order-preserving: on a list input the produced
messages are the per-item conversions of the surviving items, in the input's
relative order. -/
theorem convertHistory_idempotent_ordered (h : RawHistory) (l : List MsgO)
    (hh : convertHistory h = .ok l) :
    convertHistory (msgsToRaw l) = .ok l ∧
      ∀ items, h = .listVal items → l = items.filterMap itemMsg := by
  refine ⟨?_, ?_⟩
  · simp [convertHistory, msgsToRaw, convertItems_msgObj]
  · rintro items rfl
    exact convertItems_ok_filterMap (by simpa [convertHistory] using hh)

/-- C6 witness: idempotence and order preservation at a concrete raw
history. -/
theorem convertHistory_idempotent_ordered_witness :
    convertHistory (msgsToRaw [MsgO.human "hi", MsgO.ai "yo"]) =
        .ok [MsgO.human "hi", MsgO.ai "yo"] ∧
      [MsgO.human "hi", MsgO.ai "yo"] =
        [HistItem.dictItem (some "user") (some "hi"),
          HistItem.dictItem (some "system") (some "y"),
          HistItem.msgObj (MsgO.ai "yo"), HistItem.otherItem].filterMap itemMsg :=
  ⟨(convertHistory_idempotent_ordered histSample [MsgO.human "hi", MsgO.ai "yo"] rfl).1,
    (convertHistory_idempotent_ordered histSample [MsgO.human "hi", MsgO.ai "yo"] rfl).2 _ rfl⟩

/-- C7: every `content` event of `stream_query` carries either the text of a
streamed token tagged `orchestrator` (the orchestrator's own composed answer)
or the orchestrator's own streaming apology; a token not tagged
`orchestrator` — a sub-agent's internal deliberation — is never emitted as
`content`. -/
theorem stream_content_only_orchestrator (agent : List MsgO → AgentRun) (q : String)
    (h : RawHistory) (p : String)
    (hp : Event.content p ∈ streamQuery agent q h) :
    (∃ hist tok, convertHistory h = .ok hist ∧
        RawEvent.messages tok ∈ (agent (hist ++ [MsgO.human q])).events ∧
        "orchestrator" ∈ tok.tags ∧ p = tok.content) ∨
      ∃ e, p = "Sorry, there was a technical issue during streaming: " ++ e := by
  rcases hc : convertHistory h with e | hist
  · simp only [streamQuery, hc] at hp
    simp at hp
    exact .inr ⟨e, hp⟩
  · rcases ho : (agent (hist ++ [MsgO.human q])).outcome with e | a <;>
      simp only [streamQuery, hc, ho] at hp <;>
      rcases List.mem_append.mp hp with h1 | h2
    · rcases mem_runEvents_shape h1 with ⟨t, ht⟩ | ⟨tok, hmem, horch, he⟩
      · exact absurd ht (by simp)
      · simp only [Event.content.injEq] at he
        exact .inl ⟨hist, tok, by simp [hc], hmem, horch, he⟩
    · simp at h2
      exact .inr ⟨e, h2⟩
    · rcases mem_runEvents_shape h1 with ⟨t, ht⟩ | ⟨tok, hmem, horch, he⟩
      · exact absurd ht (by simp)
      · simp only [Event.content.injEq] at he
        exact .inl ⟨hist, tok, by simp [hc], hmem, horch, he⟩
    · simp at h2

/-- C7 witness: the provenance disjunction at a concrete streamed `content`
event. -/
theorem stream_content_only_orchestrator_witness :
    (∃ hist tok, convertHistory RawHistory.pyNone = .ok hist ∧
        RawEvent.messages tok ∈ (okAgent (hist ++ [MsgO.human "hi"])).events ∧
        "orchestrator" ∈ tok.tags ∧ "Hello!" = tok.content) ∨
      ∃ e, "Hello!" = "Sorry, there was a technical issue during streaming: " ++ e :=
  stream_content_only_orchestrator okAgent "hi" RawHistory.pyNone "Hello!" (by decide)

/-- C8 counterexample: when the Structured Store gateway's call raises, its
`run` returns `Database error: ...` — a fixed-format string embedding the
detail, but not prefixed with an apology. -/
theorem sqlAgent_error_not_apology :
    sqlAgentRun (.error "connection refused") = "Database error: connection refused" ∧
      ¬ ∃ r, sqlAgentRun (.error "connection refused") = "Sorry" ++ r := by
  constructor
  · decide
  · rintro ⟨⟨rl⟩, hr⟩
    rw [show sqlAgentRun (.error "connection refused") = "Database error: connection refused"
      by decide] at hr
    have h2 := congrArg String.data hr
    simp [String.data_append] at h2

/-- C8 (amended): both gateways catch a raised call and return a fixed-format
string embedding the raw error detail, never re-raising; the Document Store
gateway's string is apology-prefixed, while the Structured Store gateway's is
prefixed `Database error: ` without an apology. -/
theorem gateway_errors_fixed_format (e : String) :
    sqlAgentRun (.error e) = "Database error: " ++ e ∧
      ragAgentRun (.error e) = "Sorry, there was a technical issue while searching: " ++ e ∧
      ∃ r, ragAgentRun (.error e) = "Sorry" ++ r := by
  refine ⟨rfl, rfl, ", there was a technical issue while searching: " ++ e, ?_⟩
  show "Sorry, there was a technical issue while searching: " ++ e = _
  rw [← String.append_assoc]
  exact congrArg (fun s => s ++ e) (by decide)

/-- C9: with the caller's `chat_history` threaded as explicit state through
every operation the router performs on it, both `route_query` and
`stream_query` return the history exactly as it was passed in: the router
reads it but never mutates, reorders or deduplicates it. -/
theorem route_stream_preserve_history (agent : List MsgO → AgentRun) (q : String)
    (h : RawHistory) :
    (routeQueryFr agent q h).2 = h ∧ (streamQueryFr agent q h).2 = h := by
  constructor
  · rcases hc : (convertHistoryFr h).1 with e | hist
    · simp [routeQueryFr, hc, convertHistoryFr_frame]
    · rcases ho : (agent (hist ++ [MsgO.human q])).outcome with e | a <;>
        simp [routeQueryFr, hc, ho, convertHistoryFr_frame]
  · rcases hc : (convertHistoryFr h).1 with e | hist
    · simp [streamQueryFr, hc, convertHistoryFr_frame]
    · rcases ho : (agent (hist ++ [MsgO.human q])).outcome with e | a <;>
        simp [streamQueryFr, hc, ho, convertHistoryFr_frame]

/-- C10: history normalization is total at the public interface: a `None` or
non-list, non-string `chat_history` normalizes to the empty history without
raising, and `route_query` / `stream_query` with `chat_history=None` behave
exactly as with an empty history list. -/
theorem history_default_empty (agent : List MsgO → AgentRun) (q : String) :
    convertHistory RawHistory.pyNone = .ok [] ∧
      convertHistory RawHistory.otherVal = .ok [] ∧
      routeQuery agent q RawHistory.pyNone = routeQuery agent q (RawHistory.listVal []) ∧
      streamQuery agent q RawHistory.pyNone = streamQuery agent q (RawHistory.listVal []) :=
  ⟨rfl, rfl, rfl, rfl⟩

end CareerAdvisor
